import Mathlib

/-!
Verification of the Tailscale → Cloudflare DNS synchronizer.

A shallow embedding of the repository's core logic:
* `src/cloudflare.py` — record naming, the managed-record suffix filter,
  `create_dns_record` / `delete_dns_record` response handling;
* `src/tailscale.py` — IPv4 address selection in `get_devices`;
* `src/sync.py` — the reconciliation pass `synchronize_dns`.

Python strings are modelled as `List Char` (`Str`), so that `lower`,
`endswith`, `startswith` and `in` become `List.map Char.toLower`,
suffix, and membership operations.  Fallible provider calls are modelled
with `Except Unit`, where `Except.error ()` stands for a raised
exception.  The network is modelled by explicit response values handed
to each function, and the reconciliation pass takes an oracle
`SyncAction → Bool` saying which mutation calls succeed (`true`) and
which raise (`false`).
-/

/-- Python strings, modelled as lists of characters. -/
abbrev Str := List Char

/-- Convert a Lean string literal into the `Str` model. -/
def chars (s : String) : Str := s.toList

/-- Python `str.lower()`. -/
def strLower (s : Str) : Str := s.map Char.toLower

/-- Python `str.endswith(suff)`. -/
def strEndsWith (s suff : Str) : Bool := decide (suff <:+ s)

/-- Python `str.startswith(pre)`. -/
def strStartsWith (s pre : Str) : Bool := decide (pre <+: s)

/-- A Cloudflare DNS record as returned by the API (`id`, `name`,
`content`, `type` fields of the JSON record object). -/
structure DNSRecord where
  id : Str
  name : Str
  content : Str
  type : Str
deriving DecidableEq, Repr

/-- Cloudflare mutation response body: `{success, result, errors}`, with
errors abstracted to their numeric codes. -/
structure ResponseBody where
  success : Bool
  result : DNSRecord
  errors : List Nat
deriving DecidableEq, Repr

/-- Outcome of one `_request` call in `src/cloudflare.py`:
`ok body` — HTTP success, parsed JSON body returned;
`httpError codes` — `raise_for_status` raised `HTTPError`, whose response
body carried the given Cloudflare error codes (`_request` re-raises);
`netError` — a transport-level `RequestException` (`_request` re-raises). -/
inductive HTTPOutcome where
  | ok (body : ResponseBody)
  | httpError (codes : List Nat)
  | netError
deriving DecidableEq, Repr

/-- `CloudflareAPI._get_record_name` (src/cloudflare.py:42-46): raises
`ValueError` on an empty device name, otherwise returns
`f"{device_name}.{subdomain_prefix}.{domain}".lower()` — note the whole
formatted string is lowercased. -/
def get_record_name (deviceName pfx dom : Str) : Option Str :=
  if deviceName = [] then none
  else some (strLower (deviceName ++ chars "." ++ pfx ++ chars "." ++ dom))

/-- The ownership suffix `f".{subdomain_prefix}.{domain}".lower()`
computed in `get_all_managed_records` (src/cloudflare.py:191). -/
def ownSuffix (pfx dom : Str) : Str :=
  strLower (chars "." ++ pfx ++ chars "." ++ dom)

/-- `CloudflareAPI.get_all_managed_records` (src/cloudflare.py:178-197):
given the A records fetched from the zone, keep those whose lowercased
name ends with the ownership suffix. -/
def get_all_managed_records (records : List DNSRecord) (pfx dom : Str) :
    List DNSRecord :=
  records.filter (fun r => strEndsWith (strLower r.name) (ownSuffix pfx dom))

/-- `CloudflareAPI.delete_dns_record` (src/cloudflare.py:149-164): the
`_request` outcome determines the result.  An HTTP/transport error
propagates out of `_request` as an exception; a parsed body yields
`True` on `success`, `True` again when the errors carry code 81044
(record not found — treated as already deleted), and `False` otherwise. -/
def delete_dns_record (resp : HTTPOutcome) : Except Unit Bool :=
  match resp with
  | .ok body =>
      if body.success then .ok true
      else if body.errors.any (fun c => c == 81044) then .ok true
      else .ok false
  | .httpError _ => .error ()
  | .netError => .error ()

/-- `CloudflareAPI.create_dns_record` (src/cloudflare.py:86-122):
computes the record name, issues the POST (outcome `resp`), and on an
`HTTPError` carrying conflict code 81057 re-fetches the records matching
the constructed fqdn (`fetch`) and returns the first match, re-raising
when the re-fetch is empty.  All other failures raise. -/
def create_dns_record (deviceName ip pfx dom : Str) (resp : HTTPOutcome)
    (fetch : Str → List DNSRecord) : Except Unit DNSRecord :=
  match get_record_name deviceName pfx dom with
  | none => .error ()
  | some recordName =>
    match resp with
    | .ok body => if body.success then .ok body.result else .error ()
    | .httpError codes =>
        if codes.any (fun c => c == 81057) then
          match fetch recordName with
          | r :: _ => .ok r
          | [] => .error ()
        else .error ()
    | .netError => .error ()

/-- A Tailscale peer as read from `tailscale status --json`:
`HostName`, `DNSName` and the `TailscaleIPs` list. -/
structure TSDevice where
  hostName : Str
  dnsName : Str
  ips : List Str
deriving DecidableEq, Repr

/-- An entry of the device list built by `TailscaleAPI.get_devices`. -/
structure ActiveDevice where
  name : Str
  fqdn : Str
  ip : Str
  real_hostname : Str
deriving DecidableEq, Repr

/-- The IPv4 eligibility test of `TailscaleAPI.get_devices`
(src/tailscale.py:92): `"." in ip and (ip.startswith("100.") or not
ip.startswith("169.254"))`. -/
def eligibleIPv4 (ip : Str) : Bool :=
  ip.contains '.' &&
    (strStartsWith ip (chars "100.") || !strStartsWith ip (chars "169.254"))

/-- The `real_hostname` computed in `get_devices` (src/tailscale.py:99):
first component of the DNS name when present, else the host name. -/
def realHostname (d : TSDevice) : Str :=
  if d.dnsName = [] then d.hostName
  else d.dnsName.takeWhile (fun c => !(c == '.'))

/-- One iteration of the peer loop of `TailscaleAPI.get_devices`
(src/tailscale.py:84-110): skip a device with no addresses, pick the
first eligible IPv4, drop the device when none qualifies. -/
def processPeer (d : TSDevice) : Option ActiveDevice :=
  if d.ips = [] then none
  else
    match d.ips.find? eligibleIPv4 with
    | some ip => some ⟨d.hostName, d.dnsName, ip, realHostname d⟩
    | none => none

/-- `TailscaleAPI.get_devices` restricted to the peer loop
(src/tailscale.py:84-110). -/
def get_devices (peers : List TSDevice) : List ActiveDevice :=
  peers.filterMap processPeer

/-- An entry of the desired-state map built by `get_desired_dns_records`
(src/sync.py:37-52): key `fqdn`, value ip and short device name. -/
structure DesiredEntry where
  fqdn : Str
  ip : Str
  deviceName : Str
deriving DecidableEq, Repr

/-- An entry of the current-state map built by `get_current_dns_records`
(src/sync.py:54-69): key `fqdn` (lowercased record name), value record
id and ip. -/
structure CurrentEntry where
  fqdn : Str
  id : Str
  ip : Str
deriving DecidableEq, Repr

/-- `get_current_dns_records` (src/sync.py:54-69): keep the A records
and map each to `(name.lower(), id, content)`. -/
def get_current_dns_records (managed : List DNSRecord) : List CurrentEntry :=
  (managed.filter (fun r => r.type = chars "A")).map
    (fun r => ⟨strLower r.name, r.id, r.content⟩)

/-- The action counters of `synchronize_dns` (src/sync.py:103). -/
structure SyncActions where
  created : Nat
  updated : Nat
  deleted : Nat
  no_change : Nat
  errors : Nat
deriving DecidableEq, Repr

/-- A mutating Cloudflare call issued by `synchronize_dns`, with the
arguments the code passes. -/
inductive SyncAction where
  | create (deviceName ip : Str)
  | update (id deviceName ip : Str)
  | delete (id : Str)
deriving DecidableEq, Repr

/-- `current_records_map.get(fqdn)` (src/sync.py:107): dictionary lookup
in the current-state map. -/
def lookupCurrent (cur : List CurrentEntry) (k : Str) : Option CurrentEntry :=
  cur.find? (fun c => decide (c.fqdn = k))

/-- The create/update loop of `synchronize_dns` (src/sync.py:106-134).
For each desired entry: missing from current → create, differing ip →
update with the existing record id, otherwise no change.  Outside dry
run a mutation is issued (recorded in the trace) and a raised exception
(oracle `false`) is counted as an error. -/
def syncDesired (oracle : SyncAction → Bool) (dryRun : Bool)
    (cur : List CurrentEntry) :
    List DesiredEntry → SyncActions → SyncActions × List SyncAction
  | [], acc => (acc, [])
  | d :: rest, acc =>
    match lookupCurrent cur d.fqdn with
    | none =>
        if dryRun then
          syncDesired oracle dryRun cur rest
            { acc with created := acc.created + 1 }
        else
          let a := SyncAction.create d.deviceName d.ip
          let acc' :=
            if oracle a then { acc with created := acc.created + 1 }
            else { acc with errors := acc.errors + 1 }
          let res := syncDesired oracle dryRun cur rest acc'
          (res.1, a :: res.2)
    | some c =>
        if c.ip ≠ d.ip then
          if dryRun then
            syncDesired oracle dryRun cur rest
              { acc with updated := acc.updated + 1 }
          else
            let a := SyncAction.update c.id d.deviceName d.ip
            let acc' :=
              if oracle a then { acc with updated := acc.updated + 1 }
              else { acc with errors := acc.errors + 1 }
            let res := syncDesired oracle dryRun cur rest acc'
            (res.1, a :: res.2)
        else
          syncDesired oracle dryRun cur rest
            { acc with no_change := acc.no_change + 1 }

/-- The delete loop of `synchronize_dns` (src/sync.py:136-150): every
current entry whose fqdn is not a desired key is deleted. -/
def syncDeletes (oracle : SyncAction → Bool) (dryRun : Bool)
    (desired : List DesiredEntry) :
    List CurrentEntry → SyncActions → SyncActions × List SyncAction
  | [], acc => (acc, [])
  | c :: rest, acc =>
    if desired.any (fun d => decide (d.fqdn = c.fqdn)) then
      syncDeletes oracle dryRun desired rest acc
    else
      if dryRun then
        syncDeletes oracle dryRun desired rest
          { acc with deleted := acc.deleted + 1 }
      else
        let a := SyncAction.delete c.id
        let acc' :=
          if oracle a then { acc with deleted := acc.deleted + 1 }
          else { acc with errors := acc.errors + 1 }
        let res := syncDeletes oracle dryRun desired rest acc'
        (res.1, a :: res.2)

/-- The reconciliation core of `synchronize_dns` (src/sync.py:103-158):
run the create/update loop over the desired map, then the delete loop
over the current map, starting from zeroed counters.  Returns the final
counters and the trace of mutation calls issued. -/
def synchronize_dns (oracle : SyncAction → Bool) (dryRun : Bool)
    (desired : List DesiredEntry) (current : List CurrentEntry) :
    SyncActions × List SyncAction :=
  let res₁ := syncDesired oracle dryRun current desired ⟨0, 0, 0, 0, 0⟩
  let res₂ := syncDeletes oracle dryRun desired current res₁.1
  (res₂.1, res₁.2 ++ res₂.2)

/-! ### Specification helpers for the reconciliation pass -/

/-- The mutation that the create/update loop attempts for one desired
entry (`none` when the entry is up to date). -/
def attemptedDesired (cur : List CurrentEntry) (d : DesiredEntry) :
    Option SyncAction :=
  match lookupCurrent cur d.fqdn with
  | none => some (.create d.deviceName d.ip)
  | some c =>
      if c.ip ≠ d.ip then some (.update c.id d.deviceName d.ip) else none

/-- A current entry whose fqdn is not a desired key (it will be deleted). -/
def isStale (desired : List DesiredEntry) (c : CurrentEntry) : Bool :=
  ! desired.any (fun d => decide (d.fqdn = c.fqdn))

/-- Recognizer for create actions. -/
def isCreateAct : SyncAction → Bool
  | .create _ _ => true
  | _ => false

/-- Recognizer for update actions. -/
def isUpdateAct : SyncAction → Bool
  | .update _ _ _ => true
  | _ => false

/-- Modelled from the spec: the address-eligibility predicate exactly as
the specification words it, with the link-local test written with a
trailing dot (`"169.254."`).  Declared only to compare against the
source predicate `eligibleIPv4`, which tests `"169.254"`. -/
def claimEligibleIPv4 (ip : Str) : Bool :=
  ip.contains '.' &&
    (strStartsWith ip (chars "100.") || !strStartsWith ip (chars "169.254."))

/-- Modelled from the spec: the record naming rule exactly as the
specification words it — `lowercase(short_name)` followed by the
subdomain prefix and domain used as given.  Declared only to compare
against the source rule `get_record_name`, which lowercases the whole
string. -/
def claimRecordName (n pfx dom : Str) : Str :=
  strLower n ++ chars "." ++ pfx ++ chars "." ++ dom

/-- Closed form of the create/update loop outside dry run: counters are
the counts of successful creates, successful updates, up-to-date
entries and raising attempts, and the trace is exactly the list of
attempted mutations. -/
theorem syncDesired_false_eq (oracle : SyncAction → Bool)
    (cur : List CurrentEntry) (l : List DesiredEntry) (acc : SyncActions) :
    syncDesired oracle false cur l acc =
      ({ created := acc.created +
            l.countP (fun d => (attemptedDesired cur d).any
              (fun a => isCreateAct a && oracle a)),
         updated := acc.updated +
            l.countP (fun d => (attemptedDesired cur d).any
              (fun a => isUpdateAct a && oracle a)),
         deleted := acc.deleted,
         no_change := acc.no_change +
            l.countP (fun d => (attemptedDesired cur d).isNone),
         errors := acc.errors +
            l.countP (fun d => (attemptedDesired cur d).any
              (fun a => !oracle a)) },
       l.filterMap (attemptedDesired cur)) := by
  induction l generalizing acc with
  | nil => simp [syncDesired]
  | cons d rest ih =>
    rw [syncDesired]
    cases hl : lookupCurrent cur d.fqdn with
    | none =>
      by_cases h : oracle (SyncAction.create d.deviceName d.ip) <;>
        simp [h, ih, attemptedDesired, hl, isCreateAct, isUpdateAct,
          List.countP_cons, List.filterMap_cons, SyncActions.mk.injEq,
          Prod.mk.injEq] <;> omega
    | some c =>
      by_cases hip : c.ip ≠ d.ip
      · by_cases h : oracle (SyncAction.update c.id d.deviceName d.ip) <;>
          simp [hip, h, ih, attemptedDesired, hl, isCreateAct, isUpdateAct,
            List.countP_cons, List.filterMap_cons, SyncActions.mk.injEq,
            Prod.mk.injEq] <;> omega
      · have hip2 : c.ip = d.ip := not_not.mp hip
        simp [hip2, ih, attemptedDesired, hl,
          List.countP_cons, List.filterMap_cons, SyncActions.mk.injEq,
          Prod.mk.injEq]
        omega

/-- Closed form of the create/update loop in dry run: the classification
counters are incremented as if every action succeeded, and no mutation
is issued. -/
theorem syncDesired_true_eq (oracle : SyncAction → Bool)
    (cur : List CurrentEntry) (l : List DesiredEntry) (acc : SyncActions) :
    syncDesired oracle true cur l acc =
      ({ created := acc.created +
            l.countP (fun d => (attemptedDesired cur d).any isCreateAct),
         updated := acc.updated +
            l.countP (fun d => (attemptedDesired cur d).any isUpdateAct),
         deleted := acc.deleted,
         no_change := acc.no_change +
            l.countP (fun d => (attemptedDesired cur d).isNone),
         errors := acc.errors },
       []) := by
  induction l generalizing acc with
  | nil => simp [syncDesired]
  | cons d rest ih =>
    rw [syncDesired]
    cases hl : lookupCurrent cur d.fqdn with
    | none =>
      simp [ih, attemptedDesired, hl, isCreateAct, isUpdateAct,
        List.countP_cons, SyncActions.mk.injEq, Prod.mk.injEq]
      omega
    | some c =>
      by_cases hip : c.ip ≠ d.ip
      · simp [hip, ih, attemptedDesired, hl, isCreateAct, isUpdateAct,
          List.countP_cons, SyncActions.mk.injEq, Prod.mk.injEq]
        omega
      · have hip2 : c.ip = d.ip := not_not.mp hip
        simp [hip2, ih, attemptedDesired, hl,
          List.countP_cons, SyncActions.mk.injEq, Prod.mk.injEq]
        omega

/-- Closed form of the delete loop outside dry run: stale entries are
deleted (or counted as errors when the call raises), the trace lists one
delete per stale entry. -/
theorem syncDeletes_false_eq (oracle : SyncAction → Bool)
    (desired : List DesiredEntry) (l : List CurrentEntry)
    (acc : SyncActions) :
    syncDeletes oracle false desired l acc =
      ({ created := acc.created,
         updated := acc.updated,
         deleted := acc.deleted +
            l.countP (fun c => isStale desired c && oracle (.delete c.id)),
         no_change := acc.no_change,
         errors := acc.errors +
            l.countP (fun c => isStale desired c && !oracle (.delete c.id)) },
       (l.filter (isStale desired)).map (fun c => .delete c.id)) := by
  induction l generalizing acc with
  | nil => simp [syncDeletes]
  | cons c rest ih =>
    rw [syncDeletes]
    by_cases hst : desired.any (fun d => decide (d.fqdn = c.fqdn))
    · simp [hst, ih, isStale, List.countP_cons, List.filter_cons,
        SyncActions.mk.injEq, Prod.mk.injEq]
    · by_cases h : oracle (SyncAction.delete c.id) <;>
        simp [hst, h, ih, isStale, List.countP_cons, List.filter_cons,
          SyncActions.mk.injEq, Prod.mk.injEq] <;> omega

/-- Closed form of the delete loop in dry run: the deleted counter grows
by the number of stale entries, nothing is issued. -/
theorem syncDeletes_true_eq (oracle : SyncAction → Bool)
    (desired : List DesiredEntry) (l : List CurrentEntry)
    (acc : SyncActions) :
    syncDeletes oracle true desired l acc =
      ({ created := acc.created,
         updated := acc.updated,
         deleted := acc.deleted + l.countP (isStale desired),
         no_change := acc.no_change,
         errors := acc.errors },
       []) := by
  induction l generalizing acc with
  | nil => simp [syncDeletes]
  | cons c rest ih =>
    rw [syncDeletes]
    by_cases hst : desired.any (fun d => decide (d.fqdn = c.fqdn))
    · simp [hst, ih, isStale, List.countP_cons,
        SyncActions.mk.injEq, Prod.mk.injEq]
    · simp [hst, ih, isStale, List.countP_cons,
        SyncActions.mk.injEq, Prod.mk.injEq]
      omega

/-- Lowercasing a concatenation lowercases both parts. -/
theorem strLower_append (a b : Str) :
    strLower (a ++ b) = strLower a ++ strLower b :=
  List.map_append _ a b

/-- The create/update loop never attempts a delete. -/
theorem attemptedDesired_ne_delete (cur : List CurrentEntry)
    (d : DesiredEntry) (rid : Str) :
    attemptedDesired cur d ≠ some (SyncAction.delete rid) := by
  unfold attemptedDesired
  cases hl : lookupCurrent cur d.fqdn with
  | none => simp
  | some c => by_cases hip : c.ip ≠ d.ip <;> simp [hip]

/-- Counting the kept elements of a `filterMap` image. -/
theorem filterMap_filter_length {α β : Type} (f : α → Option β)
    (p : β → Bool) (l : List α) :
    ((l.filterMap f).filter p).length = l.countP (fun a => (f a).any p) := by
  induction l with
  | nil => rfl
  | cons a rest ih =>
    cases hf : f a with
    | none => simp [List.filterMap_cons, hf, List.countP_cons, ih]
    | some b =>
      by_cases hp : p b <;>
        simp [List.filterMap_cons, hf, List.filter_cons, hp,
          List.countP_cons, ih]

/-- Each desired entry is counted in exactly one of the four counters
touched by the create/update loop (outside dry run). -/
theorem desired_counts_partition (oracle : SyncAction → Bool)
    (cur : List CurrentEntry) (l : List DesiredEntry) :
    l.countP (fun d => (attemptedDesired cur d).any
        (fun a => isCreateAct a && oracle a))
      + l.countP (fun d => (attemptedDesired cur d).any
        (fun a => isUpdateAct a && oracle a))
      + l.countP (fun d => (attemptedDesired cur d).isNone)
      + l.countP (fun d => (attemptedDesired cur d).any (fun a => !oracle a))
      = l.length := by
  induction l with
  | nil => rfl
  | cons d rest ih =>
    simp only [List.countP_cons, List.length_cons]
    cases ha : attemptedDesired cur d with
    | none => simp [ha]; omega
    | some a =>
      by_cases ho : oracle a
      · cases a with
        | create n i =>
          have h1 : isCreateAct (SyncAction.create n i) = true := rfl
          have h2 : isUpdateAct (SyncAction.create n i) = false := rfl
          simp [ha, ho, h1, h2]; omega
        | update i n i2 =>
          have h1 : isCreateAct (SyncAction.update i n i2) = false := rfl
          have h2 : isUpdateAct (SyncAction.update i n i2) = true := rfl
          simp [ha, ho, h1, h2]; omega
        | delete i => exact absurd ha (attemptedDesired_ne_delete cur d i)
      · simp [ha, ho]; omega

/-- Dry-run version of `desired_counts_partition`. -/
theorem desired_counts_partition_dry (cur : List CurrentEntry)
    (l : List DesiredEntry) :
    l.countP (fun d => (attemptedDesired cur d).any isCreateAct)
      + l.countP (fun d => (attemptedDesired cur d).any isUpdateAct)
      + l.countP (fun d => (attemptedDesired cur d).isNone)
      = l.length := by
  induction l with
  | nil => rfl
  | cons d rest ih =>
    simp only [List.countP_cons, List.length_cons]
    cases ha : attemptedDesired cur d with
    | none => simp [ha]; omega
    | some a =>
      cases a with
      | create n i =>
        have h1 : isCreateAct (SyncAction.create n i) = true := rfl
        have h2 : isUpdateAct (SyncAction.create n i) = false := rfl
        simp [ha, h1, h2]; omega
      | update i n i2 =>
        have h1 : isCreateAct (SyncAction.update i n i2) = false := rfl
        have h2 : isUpdateAct (SyncAction.update i n i2) = true := rfl
        simp [ha, h1, h2]; omega
      | delete i => exact absurd ha (attemptedDesired_ne_delete cur d i)

/-- Each stale current entry is counted as deleted or as an error. -/
theorem stale_counts_partition (oracle : SyncAction → Bool)
    (desired : List DesiredEntry) (l : List CurrentEntry) :
    l.countP (fun c => isStale desired c && oracle (.delete c.id))
      + l.countP (fun c => isStale desired c && !oracle (.delete c.id))
      = l.countP (isStale desired) := by
  induction l with
  | nil => rfl
  | cons c rest ih =>
    simp only [List.countP_cons]
    by_cases hs : isStale desired c
    · by_cases ho : oracle (SyncAction.delete c.id) <;>
        simp [hs, ho] <;> omega
    · simp [hs]; omega

/-- C1: with every mutation call succeeding, `synchronize_dns` (not dry
run) counts as created exactly the desired keys absent from the current
map and issues a create for each; counts as updated exactly the desired
keys present with a differing address and issues an update carrying the
existing record id; counts as no_change the keys present with an
identical address, issuing nothing; and counts as deleted exactly the
current keys not in the desired map, issuing a delete for each. -/
theorem synchronize_dns_classification (oracle : SyncAction → Bool)
    (desired : List DesiredEntry) (current : List CurrentEntry)
    (hor : ∀ a, oracle a = true) :
    synchronize_dns oracle false desired current =
      ({ created := desired.countP
            (fun d => (lookupCurrent current d.fqdn).isNone),
         updated := desired.countP
            (fun d => (lookupCurrent current d.fqdn).any
              (fun c => decide (c.ip ≠ d.ip))),
         deleted := current.countP (isStale desired),
         no_change := desired.countP
            (fun d => (lookupCurrent current d.fqdn).any
              (fun c => decide (c.ip = d.ip))),
         errors := 0 },
       desired.filterMap (attemptedDesired current) ++
         (current.filter (isStale desired)).map
           (fun c => SyncAction.delete c.id)) := by
  have hc : (fun d => (attemptedDesired current d).any
      (fun a => isCreateAct a && oracle a))
      = fun d => (lookupCurrent current d.fqdn).isNone := by
    funext d
    unfold attemptedDesired
    cases hl : lookupCurrent current d.fqdn with
    | none => simp [isCreateAct, hor]
    | some c => by_cases hip : c.ip = d.ip <;> simp [hip, isCreateAct]
  have hu : (fun d => (attemptedDesired current d).any
      (fun a => isUpdateAct a && oracle a))
      = fun d => (lookupCurrent current d.fqdn).any
          (fun c => decide (c.ip ≠ d.ip)) := by
    funext d
    unfold attemptedDesired
    cases hl : lookupCurrent current d.fqdn with
    | none => simp [isUpdateAct]
    | some c => by_cases hip : c.ip = d.ip <;> simp [hip, isUpdateAct, hor]
  have hn : (fun d => (attemptedDesired current d).isNone)
      = fun d => (lookupCurrent current d.fqdn).any
          (fun c => decide (c.ip = d.ip)) := by
    funext d
    unfold attemptedDesired
    cases hl : lookupCurrent current d.fqdn with
    | none => simp
    | some c => by_cases hip : c.ip = d.ip <;> simp [hip]
  have he : (fun d => (attemptedDesired current d).any (fun a => !oracle a))
      = fun _ => false := by
    funext d
    unfold attemptedDesired
    cases hl : lookupCurrent current d.fqdn with
    | none => simp [hor]
    | some c => by_cases hip : c.ip = d.ip <;> simp [hip, hor]
  have hd : (fun c => isStale desired c && oracle (SyncAction.delete c.id))
      = isStale desired := by
    funext c; simp [hor]
  have he2 : (fun c => isStale desired c && !oracle (SyncAction.delete c.id))
      = fun _ => false := by
    funext c; simp [hor]
  unfold synchronize_dns
  simp only [syncDesired_false_eq, syncDeletes_false_eq, hc, hu, hn, he,
    hd, he2, List.countP_false]
  simp [SyncActions.mk.injEq, Prod.mk.injEq]

/-- Witness for C1 at a concrete pass containing one record of each
class. -/
theorem synchronize_dns_classification_witness :
    synchronize_dns (fun _ => true) false
      [⟨chars "new.ts.x", chars "100.0.0.1", chars "new"⟩,
       ⟨chars "chg.ts.x", chars "100.0.0.2", chars "chg"⟩,
       ⟨chars "same.ts.x", chars "100.0.0.3", chars "same"⟩]
      [⟨chars "chg.ts.x", chars "id1", chars "100.9.9.9"⟩,
       ⟨chars "same.ts.x", chars "id2", chars "100.0.0.3"⟩,
       ⟨chars "old.ts.x", chars "id3", chars "100.0.0.4"⟩] =
      ({ created := 1, updated := 1, deleted := 1, no_change := 1,
         errors := 0 },
       [SyncAction.create (chars "new") (chars "100.0.0.1"),
        SyncAction.update (chars "id1") (chars "chg") (chars "100.0.0.2"),
        SyncAction.delete (chars "id3")]) :=
  (synchronize_dns_classification (fun _ => true) _ _ (fun _ => rfl)).trans
    (by decide)

/-- C10: `synchronize_dns` increments exactly one counter per record:
the create/update loop increments one of created/updated/no_change/errors
per desired key, the delete loop one of deleted/errors per current key
outside the desired map, so the counters sum to
`|desired| + |current \ desired|`. -/
theorem synchronize_dns_counter_partition (oracle : SyncAction → Bool)
    (dryRun : Bool) (desired : List DesiredEntry)
    (current : List CurrentEntry) :
    ((syncDesired oracle dryRun current desired ⟨0, 0, 0, 0, 0⟩).1.created
      + (syncDesired oracle dryRun current desired ⟨0, 0, 0, 0, 0⟩).1.updated
      + (syncDesired oracle dryRun current desired ⟨0, 0, 0, 0, 0⟩).1.no_change
      + (syncDesired oracle dryRun current desired ⟨0, 0, 0, 0, 0⟩).1.errors
      = desired.length)
    ∧ ((synchronize_dns oracle dryRun desired current).1.created
      + (synchronize_dns oracle dryRun desired current).1.updated
      + (synchronize_dns oracle dryRun desired current).1.no_change
      + (synchronize_dns oracle dryRun desired current).1.deleted
      + (synchronize_dns oracle dryRun desired current).1.errors
      = desired.length + (current.filter (isStale desired)).length) := by
  have hlen := (List.countP_eq_length_filter (isStale desired) current).symm
  cases dryRun
  · have h1 := desired_counts_partition oracle current desired
    have h2 := stale_counts_partition oracle desired current
    constructor
    · rw [syncDesired_false_eq]; simp only []; omega
    · unfold synchronize_dns
      simp only [syncDesired_false_eq, syncDeletes_false_eq]
      omega
  · have h1 := desired_counts_partition_dry current desired
    constructor
    · rw [syncDesired_true_eq]; simp only []; omega
    · unfold synchronize_dns
      simp only [syncDesired_true_eq, syncDeletes_true_eq]
      omega

/-- C4: in a non-dry-run pass with an arbitrary pattern of raising
mutation calls, the error counter equals exactly the number of issued
calls that raised, the sequence of calls issued is the same as in a pass
where every call succeeds (no per-record failure aborts or skips the
remaining records), and every desired key and every stale current key is
still accounted for in the counters. -/
theorem partial_failure_isolation (oracle : SyncAction → Bool)
    (desired : List DesiredEntry) (current : List CurrentEntry) :
    (synchronize_dns oracle false desired current).1.errors =
      ((synchronize_dns oracle false desired current).2.filter
        (fun a => !oracle a)).length
    ∧ (synchronize_dns oracle false desired current).2 =
      (synchronize_dns (fun _ => true) false desired current).2
    ∧ (synchronize_dns oracle false desired current).1.created
      + (synchronize_dns oracle false desired current).1.updated
      + (synchronize_dns oracle false desired current).1.no_change
      + (synchronize_dns oracle false desired current).1.deleted
      + (synchronize_dns oracle false desired current).1.errors
      = desired.length + (current.filter (isStale desired)).length := by
  refine ⟨?_, ?_, ?_⟩
  · unfold synchronize_dns
    simp only [syncDesired_false_eq, syncDeletes_false_eq]
    rw [List.filter_append, List.length_append,
      filterMap_filter_length]
    have hmap : (((current.filter (isStale desired)).map
        (fun c => SyncAction.delete c.id)).filter (fun a => !oracle a)).length
        = current.countP
            (fun c => isStale desired c && !oracle (SyncAction.delete c.id)) := by
      rw [← List.countP_eq_length_filter, List.countP_map,
        List.countP_filter]
      refine List.countP_congr ?_
      intro c _
      simp [Function.comp, Bool.and_comm]
    rw [hmap]
    omega
  · unfold synchronize_dns
    simp only [syncDesired_false_eq, syncDeletes_false_eq]
  · have h1 := desired_counts_partition oracle current desired
    have h2 := stale_counts_partition oracle desired current
    have hlen := (List.countP_eq_length_filter (isStale desired) current).symm
    unfold synchronize_dns
    simp only [syncDesired_false_eq, syncDeletes_false_eq]
    omega

/-- C9: a dry-run pass issues no mutation call at all, and its four
classification counters equal those of a non-dry-run pass in which every
mutation succeeds. -/
theorem dry_run_skips_mutations (oracle : SyncAction → Bool)
    (desired : List DesiredEntry) (current : List CurrentEntry) :
    (synchronize_dns oracle true desired current).2 = []
    ∧ (synchronize_dns oracle true desired current).1 =
      (synchronize_dns (fun _ => true) false desired current).1 := by
  have hc : (fun d => (attemptedDesired current d).any
      (fun a => isCreateAct a && (fun _ : SyncAction => true) a))
      = fun d => (attemptedDesired current d).any isCreateAct := by
    funext d; cases attemptedDesired current d <;> simp
  have hu : (fun d => (attemptedDesired current d).any
      (fun a => isUpdateAct a && (fun _ : SyncAction => true) a))
      = fun d => (attemptedDesired current d).any isUpdateAct := by
    funext d; cases attemptedDesired current d <;> simp
  have he : (fun d => (attemptedDesired current d).any
      (fun a => !(fun _ : SyncAction => true) a)) = fun _ => false := by
    funext d; cases attemptedDesired current d <;> simp
  have hd : (fun c => isStale desired c
      && (fun _ : SyncAction => true) (SyncAction.delete c.id))
      = isStale desired := by
    funext c; simp
  have he2 : (fun c => isStale desired c
      && !(fun _ : SyncAction => true) (SyncAction.delete c.id))
      = fun _ => false := by
    funext c; simp
  unfold synchronize_dns
  simp only [syncDesired_true_eq, syncDeletes_true_eq,
    syncDesired_false_eq, syncDeletes_false_eq, hc, hu, he, hd, he2,
    List.countP_false]
  simp

/-- C2: if after a pass the current map reflects the desired map exactly
(every desired key resolves to a current entry with the same address,
and every current key is a desired key), then a second pass over the
same desired map issues no mutation and classifies every desired key as
no_change. -/
theorem second_pass_idempotent (oracle : SyncAction → Bool)
    (dryRun : Bool) (desired : List DesiredEntry)
    (current : List CurrentEntry)
    (hmatch : desired.all (fun d =>
        match lookupCurrent current d.fqdn with
        | some c => decide (c.ip = d.ip)
        | none => false) = true)
    (hkeys : current.all (fun c =>
        desired.any (fun d => decide (d.fqdn = c.fqdn))) = true) :
    synchronize_dns oracle dryRun desired current =
      ({ created := 0, updated := 0, deleted := 0,
         no_change := desired.length, errors := 0 }, []) := by
  have hatt : ∀ d ∈ desired, attemptedDesired current d = none := by
    intro d hd
    have h := List.all_eq_true.mp hmatch d hd
    unfold attemptedDesired
    cases hl : lookupCurrent current d.fqdn with
    | none => rw [hl] at h; simp at h
    | some c =>
      rw [hl] at h
      simp only [decide_eq_true_eq] at h
      simp [h]
  have hstale : ∀ c ∈ current, isStale desired c = false := by
    intro c hc
    have h := List.all_eq_true.mp hkeys c hc
    simp [isStale, h]
  have hN : desired.countP (fun d => (attemptedDesired current d).isNone)
      = desired.length := by
    rw [List.countP_eq_length]
    intro d hd
    rw [hatt d hd]
    rfl
  have hFM : desired.filterMap (attemptedDesired current) = [] := by
    rw [List.filterMap_eq_nil_iff]
    exact hatt
  have hFil : current.filter (isStale desired) = [] := by
    rw [List.filter_eq_nil_iff]
    intro c hc
    simp [hstale c hc]
  have hcnt0 : ∀ p : SyncAction → Bool,
      desired.countP (fun d => (attemptedDesired current d).any p) = 0 := by
    intro p
    rw [List.countP_eq_zero]
    intro d hd
    rw [hatt d hd]
    simp
  have hstale0 : ∀ p : CurrentEntry → Bool,
      current.countP (fun c => isStale desired c && p c) = 0 := by
    intro p
    rw [List.countP_eq_zero]
    intro c hc
    simp [hstale c hc]
  have hstaleC : current.countP (isStale desired) = 0 := by
    rw [List.countP_eq_zero]
    intro c hc
    simp [hstale c hc]
  cases dryRun
  · unfold synchronize_dns
    simp only [syncDesired_false_eq, syncDeletes_false_eq]
    rw [hFM, hFil]
    simp [SyncActions.mk.injEq, Prod.mk.injEq, hN, hcnt0, hstale0]
  · unfold synchronize_dns
    simp only [syncDesired_true_eq, syncDeletes_true_eq]
    simp [SyncActions.mk.injEq, Prod.mk.injEq, hN, hcnt0, hstaleC]

/-- Witness for C2: a second pass over one unchanged record. -/
theorem second_pass_idempotent_witness :
    synchronize_dns (fun _ => true) false
      [⟨chars "host.ts.x", chars "100.0.0.1", chars "host"⟩]
      [⟨chars "host.ts.x", chars "idA", chars "100.0.0.1"⟩] =
      ({ created := 0, updated := 0, deleted := 0, no_change := 1,
         errors := 0 }, []) :=
  second_pass_idempotent (fun _ => true) false _ _ (by decide) (by decide)

/-- C3: a pass only touches records carrying the ownership suffix: every
record kept by `get_all_managed_records` (the only source of the current
map) has a lowercased name ending with `"." + prefix + "." + domain`
(lowercased); every name built by the naming rule — used by both
`create_dns_record` and `update_dns_record` — ends with that suffix; and
every delete issued by a pass over such a current map carries the id of
one of those suffix-filtered records. -/
theorem ownership_boundary (recs : List DNSRecord) (pfx dom : Str)
    (oracle : SyncAction → Bool) (dryRun : Bool)
    (desired : List DesiredEntry) :
    (∀ r ∈ get_all_managed_records recs pfx dom,
        strEndsWith (strLower r.name) (ownSuffix pfx dom) = true)
    ∧ (∀ n m, get_record_name n pfx dom = some m →
        ownSuffix pfx dom <:+ m)
    ∧ (∀ rid, SyncAction.delete rid ∈
        (synchronize_dns oracle dryRun desired
          (get_current_dns_records
            (get_all_managed_records recs pfx dom))).2 →
        ∃ r ∈ get_all_managed_records recs pfx dom, r.id = rid) := by
  refine ⟨?_, ?_, ?_⟩
  · intro r hr
    unfold get_all_managed_records at hr
    have h := List.of_mem_filter hr
    simpa using h
  · intro n m hm
    unfold get_record_name at hm
    by_cases hn : n = []
    · simp [hn] at hm
    · rw [if_neg hn] at hm
      have hsplit : n ++ chars "." ++ pfx ++ chars "." ++ dom
          = n ++ (chars "." ++ pfx ++ chars "." ++ dom) := by
        simp [List.append_assoc]
      have hm2 : m = strLower n ++ ownSuffix pfx dom := by
        have := hm.symm
        injection hm with h
        rw [← h, hsplit, strLower_append]
        rfl
      rw [hm2]
      exact List.suffix_append _ _
  · intro rid hmem
    cases dryRun
    · unfold synchronize_dns at hmem
      simp only [syncDesired_false_eq, syncDeletes_false_eq] at hmem
      rw [List.mem_append] at hmem
      rcases hmem with hmem | hmem
      · rcases List.mem_filterMap.mp hmem with ⟨d, _, hd⟩
        exact absurd hd (attemptedDesired_ne_delete _ d rid)
      · rcases List.mem_map.mp hmem with ⟨c, hc, hcid⟩
        have hc2 : c ∈ get_current_dns_records
            (get_all_managed_records recs pfx dom) :=
          List.mem_of_mem_filter hc
        unfold get_current_dns_records at hc2
        rcases List.mem_map.mp hc2 with ⟨r, hr, hrc⟩
        refine ⟨r, List.mem_of_mem_filter hr, ?_⟩
        have : c.id = r.id := by rw [← hrc]
        rw [← this]
        injection hcid
    · unfold synchronize_dns at hmem
      simp only [syncDesired_true_eq, syncDeletes_true_eq] at hmem
      simp at hmem

/-- Witness for C3: a pass over one stale managed record deletes an id
drawn from the suffix-filtered record set. -/
theorem ownership_boundary_witness :
    ∃ r ∈ get_all_managed_records
        [⟨chars "id9", chars "old.ts.x", chars "100.0.0.9", chars "A"⟩]
        (chars "ts") (chars "x"),
      r.id = chars "id9" :=
  (ownership_boundary
      [⟨chars "id9", chars "old.ts.x", chars "100.0.0.9", chars "A"⟩]
      (chars "ts") (chars "x") (fun _ => true) false []).2.2
    (chars "id9") (by decide)

/-- C5 counterexample: when the DELETE request itself fails at the HTTP
level (here with body error code 7000), `_request` raises and
`delete_dns_record` propagates the exception instead of returning
false, contradicting the claim that any failure other than success or
code 81044 returns false rather than raising. -/
theorem delete_record_counterexample :
    delete_dns_record (.httpError [7000]) = .error ()
    ∧ delete_dns_record (.httpError [7000]) ≠ .ok false :=
  ⟨rfl, by intro h; exact Except.noConfusion h⟩

/-- C5 (amended): for a body delivered over a successful HTTP exchange,
`delete_dns_record` returns true on success, true again when the errors
carry code 81044 (record not found), and false on any other
body-reported failure; HTTP-level and transport-level failures raise
out of `_request` instead of returning false. -/
theorem delete_record_spec (body : ResponseBody) (codes : List Nat) :
    (body.success = true → delete_dns_record (.ok body) = .ok true)
    ∧ (body.success = false → 81044 ∈ body.errors →
        delete_dns_record (.ok body) = .ok true)
    ∧ (body.success = false → ¬ 81044 ∈ body.errors →
        delete_dns_record (.ok body) = .ok false)
    ∧ delete_dns_record (.httpError codes) = .error ()
    ∧ delete_dns_record .netError = .error () := by
  refine ⟨?_, ?_, ?_, rfl, rfl⟩
  · intro h
    simp [delete_dns_record, h]
  · intro h hm
    have hany : body.errors.any (fun c => c == 81044) = true := by
      rw [List.any_eq_true]
      exact ⟨81044, hm, by simp⟩
    simp [delete_dns_record, h, hany]
  · intro h hm
    have hany : ¬ body.errors.any (fun c => c == 81044) = true := by
      intro hx
      rcases List.any_eq_true.mp hx with ⟨x, hxm, hxe⟩
      have hx44 : x = 81044 := by simpa using hxe
      exact hm (hx44 ▸ hxm)
    simp [delete_dns_record, h, hany]

/-- Witness for C5 at a not-found deletion body. -/
theorem delete_record_spec_witness :
    delete_dns_record
        (.ok ⟨false, ⟨[], [], [], []⟩, [81044]⟩) = .ok true :=
  (delete_record_spec ⟨false, ⟨[], [], [], []⟩, [81044]⟩ []).2.1 rfl
    (by decide)

/-- C6: when the create POST fails with conflict code 81057 (record
already exists), `create_dns_record` does not fail: it re-fetches the
records matching the constructed fqdn and returns the first match. -/
theorem create_conflict_returns_existing (deviceName ip pfx dom m : Str)
    (codes : List Nat) (fetch : Str → List DNSRecord) (r : DNSRecord)
    (rest : List DNSRecord)
    (hname : get_record_name deviceName pfx dom = some m)
    (hcode : 81057 ∈ codes)
    (hfetch : fetch m = r :: rest) :
    create_dns_record deviceName ip pfx dom (.httpError codes) fetch
      = .ok r := by
  unfold create_dns_record
  rw [hname]
  have hany : codes.any (fun c => c == 81057) = true := by
    rw [List.any_eq_true]
    exact ⟨81057, hcode, by simp⟩
  simp [hany, hfetch]

/-- Witness for C6: a conflicting create returns the re-fetched record. -/
theorem create_conflict_returns_existing_witness :
    create_dns_record (chars "host") (chars "100.0.0.1") (chars "ts")
        (chars "x") (.httpError [81057])
        (fun _ =>
          [⟨chars "id7", chars "host.ts.x", chars "100.0.0.1", chars "A"⟩])
      = .ok ⟨chars "id7", chars "host.ts.x", chars "100.0.0.1", chars "A"⟩ :=
  create_conflict_returns_existing _ _ _ _ (chars "host.ts.x") _ _ _ _
    (by decide) (by decide) rfl

/-- A successful `find?` splits the list at the first satisfying
element. -/
theorem find?_first {α : Type} (p : α → Bool) (l : List α) (a : α)
    (h : l.find? p = some a) :
    p a = true ∧ ∃ l₁ l₂, l = l₁ ++ a :: l₂ ∧ ∀ y ∈ l₁, p y = false := by
  induction l with
  | nil => simp at h
  | cons x rest ih =>
    by_cases hx : p x
    · rw [List.find?_cons_of_pos rest hx] at h
      injection h with h
      subst h
      exact ⟨hx, [], rest, rfl, by simp⟩
    · rw [List.find?_cons_of_neg rest hx] at h
      rcases ih h with ⟨hp, l₁, l₂, heq, hall⟩
      refine ⟨hp, x :: l₁, l₂, by rw [heq]; rfl, ?_⟩
      intro y hy
      rcases List.mem_cons.mp hy with rfl | hy
      · simpa using hx
      · exact hall y hy

/-- C7 counterexample: the string "169.2541.2.3" contains a dot and does
not start with "169.254." (with trailing dot), so the specification's
predicate accepts it; but the code tests `startswith("169.254")` without
the dot, rejects it, and drops the device. -/
theorem address_selection_counterexample :
    claimEligibleIPv4 (chars "169.2541.2.3") = true
    ∧ eligibleIPv4 (chars "169.2541.2.3") = false
    ∧ get_devices [⟨chars "weird", chars "", [chars "169.2541.2.3"]⟩]
        = [] := by
  decide

/-- C7 (amended): `get_devices` selects as a device's address the first
address in `TailscaleIPs` that contains a dot and either starts with
"100." or does not start with "169.254" (no trailing dot); a device
none of whose addresses qualifies is dropped from the output. -/
theorem get_devices_address_selection (d : TSDevice) :
    (processPeer d).map (fun a => a.ip) = d.ips.find? eligibleIPv4
    ∧ (∀ ip, d.ips.find? eligibleIPv4 = some ip →
        eligibleIPv4 ip = true ∧
        ∃ l₁ l₂, d.ips = l₁ ++ ip :: l₂ ∧ ∀ y ∈ l₁, eligibleIPv4 y = false)
    ∧ (d.ips.find? eligibleIPv4 = none → get_devices [d] = []) := by
  refine ⟨?_, ?_, ?_⟩
  · unfold processPeer
    by_cases hips : d.ips = []
    · simp [hips]
    · rw [if_neg hips]
      cases hf : d.ips.find? eligibleIPv4 <;> simp
  · intro ip hf
    exact find?_first eligibleIPv4 d.ips ip hf
  · intro hf
    unfold get_devices processPeer
    by_cases hips : d.ips = [] <;> simp [hips, hf]

/-- Witness for C7: in the list ["fe80::1", "100.64.0.7"] the second
entry is the first eligible address. -/
theorem get_devices_address_selection_witness :
    eligibleIPv4 (chars "100.64.0.7") = true ∧
    ∃ l₁ l₂, [chars "fe80::1", chars "100.64.0.7"]
        = l₁ ++ (chars "100.64.0.7") :: l₂
      ∧ ∀ y ∈ l₁, eligibleIPv4 y = false :=
  (get_devices_address_selection
      ⟨chars "h", chars "h.ts.x", [chars "fe80::1", chars "100.64.0.7"]⟩).2.1
    (chars "100.64.0.7") (by decide)

/-- C8 counterexample: with short name "Host", prefix "TS" and domain
"Example.COM" the code produces "host.ts.example.com" — the prefix and
domain are lowercased too — while the claim's naming rule keeps them as
given. -/
theorem record_name_counterexample :
    get_record_name (chars "Host") (chars "TS") (chars "Example.COM")
      = some (chars "host.ts.example.com")
    ∧ get_record_name (chars "Host") (chars "TS") (chars "Example.COM")
      ≠ some (claimRecordName (chars "Host") (chars "TS")
          (chars "Example.COM")) := by
  decide

/-- C8 (amended): for a nonempty short name the constructed fqdn is the
lowercase of the whole formatted string:
`lowercase(short_name) + "." + lowercase(prefix) + "." +
lowercase(domain)`. -/
theorem record_name_lowercases_everything (n pfx dom : Str)
    (h : n ≠ []) :
    get_record_name n pfx dom
      = some (strLower n ++ chars "." ++ strLower pfx ++ chars "."
          ++ strLower dom) := by
  unfold get_record_name
  rw [if_neg h]
  have hdot : strLower (chars ".") = chars "." := by decide
  simp [strLower_append, hdot]

/-- Witness for C8 at mixed-case inputs. -/
theorem record_name_lowercases_everything_witness :
    get_record_name (chars "Host") (chars "TS") (chars "Example.COM")
      = some (strLower (chars "Host") ++ chars "." ++ strLower (chars "TS")
          ++ chars "." ++ strLower (chars "Example.COM")) :=
  record_name_lowercases_everything _ _ _ (by decide)
